import Mathlib

/-!
Verification development for the AbyssTracker data-pack build pipeline
(`tools/build_pack.py`).

The Python module is shallowly embedded below.  JSON values flowing through
the builders are modelled by `JVal`; Python's `str`, truthiness, and `int`
conversions are modelled by `pyStrV`, `pyTruthyV`, `pyIntV`; a Python `dict`
is modelled as an insertion-ordered association list with `dictInsert`
capturing `d[k] = v` (overwrite keeps the original key position).  External
library calls (OpenCV colour conversion and `INTER_AREA` resize for the
image sizes the development evaluates; `urlopen`/`imdecode` as abstract
parameters of the hash-index builder) are modelled separately and documented
at their definitions.
-/

namespace BuildPack

set_option maxRecDepth 8000

/-- A JSON value as it appears in the upstream records: `null`, a string,
or an (integer) number.  Upstream ids, rarity ranks and text-map hashes are
integers; no floating point value reaches the code paths studied here. -/
inductive JVal where
  | null : JVal
  | str (s : String) : JVal
  | num (n : Int) : JVal
deriving DecidableEq

/-- Python `str(v)` on a JSON value (`str(None) = "None"`). -/
def pyStrV : JVal → String
  | .null => "None"
  | .str s => s
  | .num n => toString n

/-- Python truthiness of a JSON value (`None`, `""` and `0` are falsy). -/
def pyTruthyV : JVal → Bool
  | .null => false
  | .str s => s ≠ ""
  | .num n => n ≠ 0

/-- Python `s.startswith(pre)` (and Lean `String.startsWith`), computed on
the character lists. -/
def pyStartsWith (s pre : String) : Bool :=
  pre.data.isPrefixOf s.data

/-- Decimal digits folded into a natural number. -/
def digitsToNat (cs : List Char) : Nat :=
  cs.foldl (fun n c => 10 * n + (c.toNat - 48)) 0

/-- Python `int(s)` on a string: an optional sign followed by at least one
decimal digit parses; anything else raises `ValueError` (`none` here).
(Surrounding whitespace and digit-group underscores, which CPython also
accepts, are not modelled; no input in this development uses them.) -/
def pyIntOfString (s : String) : Option Int :=
  match s.data with
  | [] => none
  | c :: rest =>
    let t := if c = '-' ∨ c = '+' then rest else c :: rest
    if t ≠ [] ∧ t.all Char.isDigit then
      some (if c = '-' then -(digitsToNat t : Int) else (digitsToNat t : Int))
    else
      none

/-- Python `int(v)` on a JSON value: numbers convert, numeric strings parse,
`None` (and non-numeric strings) raise — modelled as `none`. -/
def pyIntV : JVal → Option Int
  | .null => none
  | .str s => pyIntOfString s
  | .num n => some n

/-- A value of an emitted record field: `null`, a string, or an integer. -/
inductive OutVal where
  | vnull : OutVal
  | vstr (s : String) : OutVal
  | vnum (n : Int) : OutVal
deriving DecidableEq

/-- Python `str` on an emitted field value (used by f-string formatting). -/
def outStr : OutVal → String
  | .vnull => "None"
  | .vstr s => s
  | .vnum n => toString n

/-- Python truthiness of an emitted field value. -/
def outTruthy : OutVal → Bool
  | .vnull => false
  | .vstr s => s ≠ ""
  | .vnum n => n ≠ 0

/-- An emitted record: an insertion-ordered mapping field-name ↦ value. -/
abbrev OutRec := List (String × OutVal)

/-- The loaded English text map: stringified hash ↦ display string. -/
abbrev TextMap := List (String × String)

/-- Python `tm.get(k, d)` on the text map. -/
def tmGetD (tm : TextMap) (k d : String) : String :=
  (tm.lookup k).getD d

/-- Python `d[k] = v` on an insertion-ordered dict: overwrite the value at
an existing key in place, otherwise append the new binding at the end. -/
def dictInsert {α : Type} : List (String × α) → String → α → List (String × α)
  | [], k, v => [(k, v)]
  | (k', v') :: rest, k, v =>
    if k' = k then (k', v) :: rest else (k', v') :: dictInsert rest k v

/-- `rarity_from_quality` (build_pack.py:54-63): the closed five-token
quality map; any other token yields `None`. -/
def rarity_from_quality (q : String) : Option Int :=
  match q with
  | "QUALITY_ORANGE" => some 5
  | "QUALITY_PURPLE" => some 4
  | "QUALITY_BLUE" => some 3
  | "QUALITY_GREEN" => some 2
  | "QUALITY_WHITE" => some 1
  | _ => none

/-- `weapon_type_short` (build_pack.py:66-75): the closed five-token
weapon-type map; `m.get(wt, wt or "Unknown")` falls back to the token
itself when truthy, else to `"Unknown"`. -/
def weapon_type_short (wt : String) : String :=
  match wt with
  | "WEAPON_SWORD_ONE_HAND" => "Sword"
  | "WEAPON_CLAYMORE" => "Claymore"
  | "WEAPON_POLE" => "Polearm"
  | "WEAPON_CATALYST" => "Catalyst"
  | "WEAPON_BOW" => "Bow"
  | _ => if wt ≠ "" then wt else "Unknown"

/-- An upstream avatar (character) candidate record: the five fields
`build_characters` reads, each possibly missing (`none`). -/
structure Avatar where
  id : Option JVal
  iconName : Option JVal
  qualityType : Option JVal
  weaponType : Option JVal
  nameTextMapHash : Option JVal
deriving DecidableEq

/-- An upstream weapon candidate record: the five fields `build_weapons`
reads, each possibly missing (`none`). -/
structure Weapon where
  id : Option JVal
  icon : Option JVal
  weaponType : Option JVal
  rankLevel : Option JVal
  nameTextMapHash : Option JVal
deriving DecidableEq

/-- The sort key `int(x.get("id", 0))` (build_pack.py:95/133): a missing
id defaults to the integer `0`; a present id goes through `int`, which can
raise (`none`). -/
def idSortKey (id : Option JVal) : Option Int :=
  pyIntV (id.getD (.num 0))

/-- Key computation of `sorted(..., key=...)`: Python evaluates the key of
every element first; a raising key aborts the whole sort (`none`). -/
def computeKeys {α : Type} (key : α → Option Int) : List α → Option (List (Int × α))
  | [] => some []
  | a :: rest =>
    match key a with
    | none => none
    | some k => (computeKeys key rest).map ((k, a) :: ·)

/-- The loop body of `build_characters` (build_pack.py:101-126): the filter
chain (truthy id and icon, `UI_AvatarIcon_` prefix, resolvable rarity) and,
on success, the emitted record keyed by `str(id)`. -/
def acceptChar (tm : TextMap) (a : Avatar) : Option (String × OutRec) :=
  let _id := a.id.getD .null
  let icon := a.iconName.getD .null
  let q := a.qualityType.getD .null
  let wt := a.weaponType.getD .null
  let name_hash := match a.nameTextMapHash with
    | none => ""
    | some v => pyStrV v
  if ¬ (pyTruthyV _id && pyTruthyV icon) then none
  else if ¬ pyStartsWith (pyStrV icon) "UI_AvatarIcon_" then none
  else
    match rarity_from_quality (pyStrV q) with
    | none => none
    | some rarity =>
      some (pyStrV _id,
        [("name", .vstr (tmGetD tm name_hash ("#" ++ pyStrV _id))),
         ("rarity", .vnum rarity),
         ("element", .vnull),
         ("weapon_type", .vstr (weapon_type_short (pyStrV wt))),
         ("icon_name", .vstr (pyStrV icon))])

/-- The loop body of `build_weapons` (build_pack.py:139-163): truthy id and
icon, `UI_EquipIcon_` prefix, `int(rank_level)` with the `try/except`
modelled by `Option`; the emitted record uses the key `"type"` (not
`"weapon_type"`) and has no `"element"` field. -/
def acceptWeap (tm : TextMap) (w : Weapon) : Option (String × OutRec) :=
  let _id := w.id.getD .null
  let icon := w.icon.getD .null
  let wt := w.weaponType.getD .null
  let rank_level := w.rankLevel.getD .null
  let name_hash := match w.nameTextMapHash with
    | none => ""
    | some v => pyStrV v
  if ¬ (pyTruthyV _id && pyTruthyV icon) then none
  else if ¬ pyStartsWith (pyStrV icon) "UI_EquipIcon_" then none
  else
    match pyIntV rank_level with
    | none => none
    | some rarity =>
      some (pyStrV _id,
        [("name", .vstr (tmGetD tm name_hash ("#" ++ pyStrV _id))),
         ("rarity", .vnum rarity),
         ("type", .vstr (weapon_type_short (pyStrV wt))),
         ("icon_name", .vstr (pyStrV icon))])

/-- The selector scan shared by `build_characters` (build_pack.py:97-128)
and `build_weapons` (build_pack.py:135-165): walk the sorted candidates,
break as soon as the table holds `N` entries (checked at the top of each
iteration), skip candidates the loop body rejects, and insert accepted
records into the ordered dict. -/
def scanTable {α β : Type} (N : Nat) (accept : α → Option (String × β)) :
    List α → List (String × β) → List (String × β)
  | [], out => out
  | a :: rest, out =>
    if N ≤ out.length then out
    else
      match accept a with
      | none => scanTable N accept rest out
      | some (k, v) => scanTable N accept rest (dictInsert out k v)

/-- Python's `sorted` with precomputed keys: a stable sort ascending by
key.  The output of a stable sort under a total preorder is unique, so the
structurally recursive `List.insertionSort` (stable: an earlier element is
placed before later elements with an equal key) models `sorted` exactly. -/
def pySortByKey {α : Type} (keyed : List (Int × α)) : List (Int × α) :=
  keyed.insertionSort (fun p q => p.1 ≤ q.1)

/-- `build_characters` (build_pack.py:92-128): stable sort of the
candidates by `int(x.get("id", 0))` (a raising key aborts: `none`), then
the bounded filtering scan. -/
def build_characters (N : Nat) (avatars : List Avatar) (tm : TextMap) :
    Option (List (String × OutRec)) :=
  (computeKeys (fun a => idSortKey a.id) avatars).map (fun keyed =>
    scanTable N (acceptChar tm) ((pySortByKey keyed).map Prod.snd) [])

/-- `build_weapons` (build_pack.py:131-165): same shape as
`build_characters` with the weapon loop body. -/
def build_weapons (N : Nat) (weapons : List Weapon) (tm : TextMap) :
    Option (List (String × OutRec)) :=
  (computeKeys (fun w => idSortKey w.id) weapons).map (fun keyed =>
    scanTable N (acceptWeap tm) ((pySortByKey keyed).map Prod.snd) [])

/-! ### Perceptual hasher (`dhash_hex`, build_pack.py:42-51) -/

/-- One row of `resized[:, 1:] > resized[:, :-1]`: position `j` compares
pixel `j` to its right neighbour `j+1` and is `true` exactly when the right
neighbour is strictly greater. -/
def rowBits (r : List Nat) : List Bool :=
  List.zipWith (fun a b => decide (a < b)) r r.tail

/-- `diff.flatten()` bits: all comparison bits in row-major order. -/
def dhashBits (resized : List (List Nat)) : List Bool :=
  (resized.map rowBits).flatten

/-- The packing loop `val = (val << 1) | int(bool(b))`: since the shifted
value has low bit `0`, the bitwise-or is the addition `2*val + bit`. -/
def packBits (bs : List Bool) : Nat :=
  bs.foldl (fun v b => 2 * v + (if b then 1 else 0)) 0

/-- `width = (hash_size * hash_size + 3) // 4`. -/
def hexWidth (hash_size : Nat) : Nat :=
  (hash_size * hash_size + 3) / 4

/-- Python `f"{val:0{width}x}"`: lowercase hexadecimal, left-padded with
zeros to `width` digits (never truncated when longer). -/
def toHexPad (val width : Nat) : String :=
  let s := (Nat.toDigits 16 val).asString
  ⟨List.replicate (width - s.length) '0'⟩ ++ s

/-- Modelled from OpenCV `cvtColor(·, COLOR_BGR2GRAY)` on an 8-bit pixel
`(b, g, r)`: the fixed-point luma `(1868*B + 9617*G + 4899*R + 2^13) >> 14`
(OpenCV's `B2Y/G2Y/R2Y` coefficients, which sum to `2^14`, so equal
channels map to themselves). -/
def bgr2grayPixel (p : Nat × Nat × Nat) : Nat :=
  (1868 * p.1 + 9617 * p.2.1 + 4899 * p.2.2 + 8192) / 16384

/-- Modelled from OpenCV: greyscale conversion of a whole BGR image. -/
def cvtColorBGR2GRAY (img : List (List (Nat × Nat × Nat))) : List (List Nat) :=
  img.map (·.map bgr2grayPixel)

/-- Modelled from OpenCV `resize(..., INTER_AREA)` horizontal coefficients
for upscaling `n` source columns to `n+1` destination columns: area mode
uses `sx = ⌊dx*n/(n+1)⌋` and `fx = (dx+1) - (sx+1)*(n+1)/n` clamped at `0`,
turned into the 11-bit fixed-point weight `fx * 2048` (exact for `n = 8`,
the only width this development evaluates). -/
def areaCoeff (n dx : Nat) : Nat × Nat :=
  let sx := dx * n / (n + 1)
  let num : Int := ((dx + 1) * n : Int) - ((sx + 1) * (n + 1) : Int)
  (sx, if num ≤ 0 then 0 else num.toNat * 2048 / n)

/-- Modelled from OpenCV: one row of the `INTER_AREA` `n → n+1` upscale,
bilinear with the area-mode coefficients in 11-bit fixed point; the final
descale adds `2^21` and shifts right by `22`. -/
def resizeRowArea (n : Nat) (row : List Nat) : List Nat :=
  (List.range (n + 1)).map (fun dx =>
    let c := areaCoeff n dx
    (2048 * (row.getD c.1 0 * (2048 - c.2) + row.getD (c.1 + 1) 0 * c.2)
        + 2097152) / 4194304)

/-- Modelled from OpenCV: `cv2.resize(gray, (n+1, n), INTER_AREA)` for an
`n × n` source (the shape `dhash_hex` receives in this development): the
row count is unchanged and area-mode vertical coefficients at scale 1 are
the identity, so only rows are resized. -/
def cvResizeAreaSq (n : Nat) (img : List (List Nat)) : List (List Nat) :=
  img.map (resizeRowArea n)

/-- `dhash_hex` (build_pack.py:42-51): greyscale, resize to
`(hash_size+1) × hash_size`, horizontal strict comparisons, MSB-first
packing, zero-padded lowercase hex. -/
def dhash_hex (img : List (List (Nat × Nat × Nat))) (hash_size : Nat) : String :=
  let gray := cvtColorBGR2GRAY img
  let resized := cvResizeAreaSq hash_size gray
  toHexPad (packBits (dhashBits resized)) (hexWidth hash_size)

/-- The greyscale branch of `to_bgr` (build_pack.py:178-179): OpenCV
`COLOR_GRAY2BGR` replicates the single channel into all three. -/
def to_bgr_gray (g : List (List Nat)) : List (List (Nat × Nat × Nat)) :=
  g.map (·.map (fun v => (v, v, v)))

/-- Spec-side variant of `rowBits`, following the spec's words for the
comparison direction only: "bit = 1 if left pixel's intensity is strictly
greater than right neighbor's".  Used to compare the spec's stated
direction against the code's. -/
def rowBitsSpecDir (r : List Nat) : List Bool :=
  List.zipWith (fun a b => decide (b < a)) r r.tail

/-- `dhash_hex` with the spec's stated comparison direction substituted;
everything else as in the code. -/
def dhash_hex_specdir (img : List (List (Nat × Nat × Nat))) (hash_size : Nat) : String :=
  let gray := cvtColorBGR2GRAY img
  let resized := cvResizeAreaSq hash_size gray
  toHexPad (packBits ((resized.map rowBitsSpecDir).flatten)) (hexWidth hash_size)

/-! ### Hash index builder (`build_hash_index`, build_pack.py:182-204) -/

/-- `ENKA_UI` (build_pack.py:19). -/
def ENKA_UI : String := "https://enka.network/ui"

/-- The loop of `build_hash_index` (build_pack.py:188-204), with the
external world as parameters: `fetch` models `http_get_bytes` (an
exception is `Except.error ()`), `imdecode` models `cv2.imdecode` over an
abstract decoded-image type (`none` is a null result), and `toBgr`/`dh`
stand for `to_bgr` and `dhash_hex` applied to that type.  A falsy
`icon_name` skips; a fetch error or null decode skips; success inserts
`idx[str(_id)] = dhash_hex(img)` (the table key is already a string). -/
def buildHashIndexAux {Img : Type} (fetch : String → Except Unit (List Nat))
    (imdecode : List Nat → Option Img) (toBgr : Img → Img) (dh : Img → String) :
    List (String × OutRec) → List (String × String) → List (String × String)
  | [], idx => idx
  | (k, meta) :: rest, idx =>
    let icon_name := ((meta.lookup "icon_name").getD .vnull)
    if ¬ outTruthy icon_name then
      buildHashIndexAux fetch imdecode toBgr dh rest idx
    else
      match fetch (ENKA_UI ++ "/" ++ outStr icon_name ++ ".png") with
      | .error _ => buildHashIndexAux fetch imdecode toBgr dh rest idx
      | .ok png =>
        match imdecode png with
        | none => buildHashIndexAux fetch imdecode toBgr dh rest idx
        | some img =>
          buildHashIndexAux fetch imdecode toBgr dh rest
            (dictInsert idx k (dh (toBgr img)))

/-- `build_hash_index` (build_pack.py:182-204): run the loop over the
table with an empty starting index. -/
def build_hash_index {Img : Type} (fetch : String → Except Unit (List Nat))
    (imdecode : List Nat → Option Img) (toBgr : Img → Img) (dh : Img → String)
    (items : List (String × OutRec)) : List (String × String) :=
  buildHashIndexAux fetch imdecode toBgr dh items []

/-! ### Specification-side helper definitions used by the theorems -/

/-- The keys of the candidates a selector loop body accepts, in list
order. -/
def acceptedKeys {α β : Type} (accept : α → Option (String × β)) (l : List α) :
    List String :=
  l.filterMap (fun a => (accept a).map Prod.fst)

/-! ### Concrete inputs used by the closed theorems -/

/-- One row of the 8-pixel linear grey ramp 0 → 255 (`np.linspace(0, 255, 8)`
rounded to 8-bit). -/
def rampRow : List Nat := [0, 36, 73, 109, 146, 182, 219, 255]

/-- The 8×8 grey-ramp image, replicated to three channels the way
`to_bgr` converts a greyscale decode before hashing. -/
def rampImage : List (List (Nat × Nat × Nat)) :=
  to_bgr_gray (List.replicate 8 rampRow)

/-- The end-to-end example candidate from the spec. -/
def ayakaAvatar : Avatar :=
  { id := some (.num 10000002), iconName := some (.str "UI_AvatarIcon_Ayaka"),
    qualityType := some (.str "QUALITY_PURPLE"),
    weaponType := some (.str "WEAPON_SWORD_ONE_HAND"),
    nameTextMapHash := some (.str "123") }

/-- A candidate whose id is present but not numeric. -/
def nonNumericIdAvatar : Avatar :=
  { id := some (.str "abc"), iconName := none, qualityType := none,
    weaponType := none, nameTextMapHash := none }

/-- A candidate with no id at all. -/
def missingIdAvatar : Avatar :=
  { id := none, iconName := none, qualityType := none,
    weaponType := none, nameTextMapHash := none }

/-- A weapon candidate with `rankLevel` 9 that passes every filter. -/
def rank9Weapon : Weapon :=
  { id := some (.num 100), icon := some (.str "UI_EquipIcon_X"),
    weaponType := some (.str "WEAPON_BOW"), rankLevel := some (.num 9),
    nameTextMapHash := none }

/-- A fully valid character candidate (used twice to exercise duplicate
ids). -/
def dupAvatar : Avatar :=
  { id := some (.num 1), iconName := some (.str "UI_AvatarIcon_A"),
    qualityType := some (.str "QUALITY_ORANGE"), weaponType := none,
    nameTextMapHash := none }

/-! ### Theorems -/

/-- C2: the 8×8 image whose every row is the strictly increasing linear
ramp from 0 (left) to 255 (right), hashed with `hash_size = 8`, yields the
all-ones 64-bit value (every bit 1) and the hex string
`"ffffffffffffffff"`. -/
theorem dhash_ramp_all_ones :
    dhash_hex rampImage 8 = "ffffffffffffffff" ∧
    packBits (dhashBits (cvResizeAreaSq 8 (cvtColorBGR2GRAY rampImage))) =
      2 ^ 64 - 1 := by
  decide

/-- C1, counterexample: on the ramp image the code's hash is all ones while
the hash computed with the claim's comparison direction (bit = 1 when the
*left* pixel is strictly greater) is all zeros, so the claimed direction
contradicts the code. -/
theorem dhash_direction_counterexample :
    dhash_hex rampImage 8 = "ffffffffffffffff" ∧
    dhash_hex_specdir rampImage 8 = "0000000000000000" ∧
    dhash_hex rampImage 8 ≠ dhash_hex_specdir rampImage 8 := by
  decide

/-- C8: the spec's end-to-end example: the Ayaka candidate with text map
`{"123": "Kamisato Ayaka"}` produces exactly the stated table. -/
theorem ayaka_end_to_end :
    build_characters 30 [ayakaAvatar] [("123", "Kamisato Ayaka")] =
      some [("10000002",
        [("name", .vstr "Kamisato Ayaka"),
         ("rarity", .vnum 4),
         ("element", .vnull),
         ("weapon_type", .vstr "Sword"),
         ("icon_name", .vstr "UI_AvatarIcon_Ayaka")])] := by
  decide

/-- C9, counterexample: a candidate whose id is the non-numeric string
`"abc"` makes the sort key `int(x.get("id", 0))` raise, aborting the build
(`none`) instead of being treated as 0 — whereas a *missing* id really is
treated as 0 and the build succeeds. -/
theorem sort_key_nonnumeric_counterexample :
    build_characters 30 [nonNumericIdAvatar] [] = none ∧
    build_characters 30 [missingIdAvatar] [] = some [] := by
  decide

/-- C3, counterexample: an accepted weapon produces a record whose keys are
exactly `name, rarity, type, icon_name` — there is no `element` key and the
weapon-type key is `"type"`, not `"weapon_type"`. -/
theorem weapons_record_keys_counterexample :
    (build_weapons 30 [rank9Weapon] []).map (·.map (fun p => p.2.map Prod.fst)) =
      some [["name", "rarity", "type", "icon_name"]] ∧
    "element" ∉ (["name", "rarity", "type", "icon_name"] : List String) ∧
    "weapon_type" ∉ (["name", "rarity", "type", "icon_name"] : List String) := by
  decide

/-- C4, counterexample: the weapon with `rankLevel` 9 is accepted and its
emitted rarity is 9, outside `{1, 2, 3, 4, 5}`. -/
theorem weapon_rarity_range_counterexample :
    (build_weapons 30 [rank9Weapon] []).map (·.map (fun p => p.2.lookup "rarity")) =
      some [some (OutVal.vnum 9)] ∧
    (9 : Int) ∉ ([1, 2, 3, 4, 5] : List Int) := by
  decide

/-- C5, counterexample: with `N = 2`, a list in which two candidates pass
every filter but share the id `1` yields a table of size 1, not 2 — the
second acceptance overwrites the first key. -/
theorem selector_exact_count_counterexample :
    (build_characters 2 [dupAvatar, dupAvatar] []).map List.length = some 1 ∧
    (acceptedKeys (acceptChar []) [dupAvatar, dupAvatar]).length = 2 := by
  decide

/-! ### Lemmas about the ordered-dict insertion -/

theorem dictInsert_keys {α : Type} (d : List (String × α)) (k : String) (v : α) :
    (dictInsert d k v).map Prod.fst =
      if k ∈ d.map Prod.fst then d.map Prod.fst else d.map Prod.fst ++ [k] := by
  induction d with
  | nil => simp [dictInsert]
  | cons p rest ih =>
    obtain ⟨k', v'⟩ := p
    by_cases hk : k' = k
    · subst hk
      simp [dictInsert]
    · simp only [dictInsert, if_neg hk, List.map_cons, ih]
      by_cases hmem : k ∈ rest.map Prod.fst
      · simp [hmem, Ne.symm hk]
      · simp [hmem, Ne.symm hk]

theorem length_dictInsert {α : Type} (d : List (String × α)) (k : String) (v : α) :
    (dictInsert d k v).length =
      if k ∈ d.map Prod.fst then d.length else d.length + 1 := by
  have h := congrArg List.length (dictInsert_keys d k v)
  simpa [apply_ite List.length] using h

theorem length_dictInsert_le {α : Type} (d : List (String × α)) (k : String) (v : α) :
    (dictInsert d k v).length ≤ d.length + 1 := by
  rw [length_dictInsert]
  split <;> omega

theorem mem_dictInsert {α : Type} {d : List (String × α)} {k : String} {v : α}
    {p : String × α} (hp : p ∈ dictInsert d k v) : p ∈ d ∨ p = (k, v) := by
  induction d with
  | nil => simpa [dictInsert] using hp
  | cons q rest ih =>
    obtain ⟨k', v'⟩ := q
    by_cases hk : k' = k
    · simp only [dictInsert, if_pos hk] at hp
      rcases List.mem_cons.mp hp with h | h
      · exact Or.inr (by rw [h, hk])
      · exact Or.inl (List.mem_cons_of_mem _ h)
    · simp only [dictInsert, if_neg hk] at hp
      rcases List.mem_cons.mp hp with h | h
      · exact Or.inl (by rw [h]; exact List.mem_cons_self _ _)
      · rcases ih h with h' | h'
        · exact Or.inl (List.mem_cons_of_mem _ h')
        · exact Or.inr h'

/-! ### C6 and C7: the hash index builder -/

theorem buildHashIndexAux_key_mem {Img : Type} (fetch : String → Except Unit (List Nat))
    (imdecode : List Nat → Option Img) (toBgr : Img → Img) (dh : Img → String) :
    ∀ (items : List (String × OutRec)) (idx : List (String × String)) (k : String),
      k ∈ (buildHashIndexAux fetch imdecode toBgr dh items idx).map Prod.fst →
      k ∈ idx.map Prod.fst ∨ k ∈ items.map Prod.fst := by
  intro items
  induction items with
  | nil =>
    intro idx k hk
    exact Or.inl (by simpa [buildHashIndexAux] using hk)
  | cons item rest ih =>
    intro idx k hk
    obtain ⟨k₀, meta⟩ := item
    simp only [buildHashIndexAux] at hk
    split at hk
    · rcases ih idx k hk with h | h
      · exact Or.inl h
      · exact Or.inr (by simp [h])
    · split at hk
      · rcases ih idx k hk with h | h
        · exact Or.inl h
        · exact Or.inr (by simp [h])
      · split at hk
        · rcases ih idx k hk with h | h
          · exact Or.inl h
          · exact Or.inr (by simp [h])
        · rcases ih _ k hk with h | h
          · rw [dictInsert_keys] at h
            split at h
            · exact Or.inl h
            · rcases List.mem_append.mp h with h' | h'
              · exact Or.inl h'
              · exact Or.inr (by simp_all)
          · exact Or.inr (by simp [h])

theorem buildHashIndexAux_length {Img : Type} (fetch : String → Except Unit (List Nat))
    (imdecode : List Nat → Option Img) (toBgr : Img → Img) (dh : Img → String) :
    ∀ (items : List (String × OutRec)) (idx : List (String × String)),
      (buildHashIndexAux fetch imdecode toBgr dh items idx).length ≤
        idx.length + items.length := by
  intro items
  induction items with
  | nil => intro idx; simp [buildHashIndexAux]
  | cons item rest ih =>
    intro idx
    obtain ⟨k₀, meta⟩ := item
    simp only [buildHashIndexAux]
    split
    · have := ih idx; simp only [List.length_cons]; omega
    · split
      · have := ih idx; simp only [List.length_cons]; omega
      · split
        · have := ih idx; simp only [List.length_cons]; omega
        · rename_i img heq
          have h1 := ih (dictInsert idx k₀ (dh (toBgr img)))
          have h2 := length_dictInsert_le idx k₀ (dh (toBgr img))
          simp only [List.length_cons]
          omega

/-- C6: every key of a hash index built from a table is a key of that
table, and the index is never longer than the table — for every behaviour
of the external fetch/decode world. -/
theorem hash_index_subset {Img : Type} (fetch : String → Except Unit (List Nat))
    (imdecode : List Nat → Option Img) (toBgr : Img → Img) (dh : Img → String)
    (items : List (String × OutRec)) :
    (∀ k, k ∈ (build_hash_index fetch imdecode toBgr dh items).map Prod.fst →
        k ∈ items.map Prod.fst) ∧
    (build_hash_index fetch imdecode toBgr dh items).length ≤ items.length := by
  constructor
  · intro k hk
    rcases buildHashIndexAux_key_mem fetch imdecode toBgr dh items [] k hk with h | h
    · simp at h
    · exact h
  · have := buildHashIndexAux_length fetch imdecode toBgr dh items []
    simpa using this

/-- Witness for C6 at a concrete instantiation: a one-record table whose
fetch and decode succeed. -/
theorem hash_index_subset_witness :
    (∀ k, k ∈ (build_hash_index (fun _ => Except.ok [])
          (fun _ => some ()) (fun i => i) (fun _ => "h")
          [("1", [("icon_name", OutVal.vstr "X")])]).map Prod.fst →
        k ∈ [("1", [("icon_name", OutVal.vstr "X")])].map Prod.fst) ∧
    (build_hash_index (fun _ => Except.ok [])
        (fun _ => some ()) (fun i => i) (fun _ => "h")
        [("1", [("icon_name", OutVal.vstr "X")])]).length ≤
      [("1", [("icon_name", OutVal.vstr "X")])].length :=
  hash_index_subset (fun _ => Except.ok []) (fun _ => some ()) (fun i => i)
    (fun _ => "h") [("1", [("icon_name", OutVal.vstr "X")])]

/-- The URL `build_hash_index` fetches for a record (build_pack.py:193). -/
def iconUrl (meta : OutRec) : String :=
  ENKA_UI ++ "/" ++ outStr ((meta.lookup "icon_name").getD .vnull) ++ ".png"

theorem buildHashIndexAux_skip {Img : Type} {fetch : String → Except Unit (List Nat)}
    {imdecode : List Nat → Option Img} (toBgr : Img → Img) (dh : Img → String)
    {meta : OutRec}
    (hfail : fetch (iconUrl meta) = Except.error () ∨
      ∃ b, fetch (iconUrl meta) = Except.ok b ∧ imdecode b = none) :
    ∀ (pre post : List (String × OutRec)) (k : String) (idx : List (String × String)),
      buildHashIndexAux fetch imdecode toBgr dh (pre ++ (k, meta) :: post) idx =
        buildHashIndexAux fetch imdecode toBgr dh (pre ++ post) idx := by
  intro pre
  induction pre with
  | nil =>
    intro post k idx
    simp only [List.nil_append, buildHashIndexAux]
    split
    · rfl
    · rcases hfail with h | ⟨b, hb, hdec⟩
      · rw [show (ENKA_UI ++ "/" ++ outStr ((meta.lookup "icon_name").getD .vnull) ++ ".png")
            = iconUrl meta from rfl, h]
      · rw [show (ENKA_UI ++ "/" ++ outStr ((meta.lookup "icon_name").getD .vnull) ++ ".png")
            = iconUrl meta from rfl, hb]
        simp [hdec]
  | cons item pre' ih =>
    intro post k idx
    obtain ⟨k₀, m₀⟩ := item
    simp only [List.cons_append, buildHashIndexAux]
    split
    · exact ih post k idx
    · split
      · exact ih post k idx
      · split
        · exact ih post k idx
        · exact ih post k _

/-- C7: a record whose icon fetch throws, or whose decode yields a null
image, contributes no index entry at all, and the builder produces exactly
the index of the remaining records — no per-asset failure escapes or
aborts the build (the builder is a total function of the external world's
behaviour). -/
theorem hash_index_skip_failure {Img : Type} (fetch : String → Except Unit (List Nat))
    (imdecode : List Nat → Option Img) (toBgr : Img → Img) (dh : Img → String)
    (pre post : List (String × OutRec)) (k : String) (meta : OutRec)
    (hfail : fetch (iconUrl meta) = Except.error () ∨
      ∃ b, fetch (iconUrl meta) = Except.ok b ∧ imdecode b = none) :
    build_hash_index fetch imdecode toBgr dh (pre ++ (k, meta) :: post) =
      build_hash_index fetch imdecode toBgr dh (pre ++ post) :=
  buildHashIndexAux_skip toBgr dh hfail pre post k []

/-- Witness for C7 at a concrete instantiation: the single record's fetch
throws, so the index is the one built from the empty table. -/
theorem hash_index_skip_failure_witness :
    build_hash_index (fun _ => Except.error ())
        (fun _ => some ()) (fun i => i) (fun _ => "h")
        ([] ++ ("1", [("icon_name", OutVal.vstr "X")]) :: []) =
      build_hash_index (fun _ => Except.error ())
        (fun _ => some ()) (fun i => i) (fun _ => "h") ([] ++ []) :=
  hash_index_skip_failure (fun _ => Except.error ()) (fun _ => some ())
    (fun i => i) (fun _ => "h") [] [] "1" [("icon_name", OutVal.vstr "X")]
    (Or.inl rfl)

/-! ### Structure of accepted records -/

theorem acceptChar_some {tm : TextMap} {a : Avatar} {k : String} {rec : OutRec}
    (h : acceptChar tm a = some (k, rec)) :
    ∃ r : Int, rarity_from_quality (pyStrV (a.qualityType.getD .null)) = some r ∧
      k = pyStrV (a.id.getD .null) ∧
      rec = [("name", .vstr (tmGetD tm
                (match a.nameTextMapHash with | none => "" | some v => pyStrV v)
                ("#" ++ pyStrV (a.id.getD .null)))),
             ("rarity", .vnum r),
             ("element", .vnull),
             ("weapon_type", .vstr (weapon_type_short (pyStrV (a.weaponType.getD .null)))),
             ("icon_name", .vstr (pyStrV (a.iconName.getD .null)))] := by
  simp only [acceptChar] at h
  split at h
  · exact absurd h (by simp)
  · split at h
    · exact absurd h (by simp)
    · split at h
      · exact absurd h (by simp)
      · rename_i r heq
        rw [Option.some.injEq, Prod.mk.injEq] at h
        exact ⟨r, heq, h.1.symm, h.2.symm⟩

theorem acceptWeap_some {tm : TextMap} {w : Weapon} {k : String} {rec : OutRec}
    (h : acceptWeap tm w = some (k, rec)) :
    ∃ r : Int, pyIntV (w.rankLevel.getD .null) = some r ∧
      k = pyStrV (w.id.getD .null) ∧
      rec = [("name", .vstr (tmGetD tm
                (match w.nameTextMapHash with | none => "" | some v => pyStrV v)
                ("#" ++ pyStrV (w.id.getD .null)))),
             ("rarity", .vnum r),
             ("type", .vstr (weapon_type_short (pyStrV (w.weaponType.getD .null)))),
             ("icon_name", .vstr (pyStrV (w.icon.getD .null)))] := by
  simp only [acceptWeap] at h
  split at h
  · exact absurd h (by simp)
  · split at h
    · exact absurd h (by simp)
    · split at h
      · exact absurd h (by simp)
      · rename_i r heq
        rw [Option.some.injEq, Prod.mk.injEq] at h
        exact ⟨r, heq, h.1.symm, h.2.symm⟩

/-- Every value `rarity_from_quality` can return lies in `{1, …, 5}`. -/
theorem rarity_from_quality_mem {q : String} {r : Int}
    (h : rarity_from_quality q = some r) : r ∈ ([1, 2, 3, 4, 5] : List Int) := by
  unfold rarity_from_quality at h
  split at h <;> simp_all

/-- Every record of `scanTable` output satisfies any property enjoyed by
the starting table and by every record the loop body can accept. -/
theorem scanTable_mem {α β : Type} (N : Nat) (accept : α → Option (String × β))
    (P : String × β → Prop) :
    ∀ (l : List α) (out : List (String × β)),
      (∀ p ∈ out, P p) →
      (∀ a k v, accept a = some (k, v) → P (k, v)) →
      ∀ p ∈ scanTable N accept l out, P p := by
  intro l
  induction l with
  | nil =>
    intro out hout _ p hp
    exact hout p (by simpa [scanTable] using hp)
  | cons a rest ih =>
    intro out hout hacc p hp
    simp only [scanTable] at hp
    split at hp
    · exact hout p hp
    · split at hp
      · exact ih out hout hacc p hp
      · rename_i k v heq
        refine ih _ ?_ hacc p hp
        intro q hq
        rcases mem_dictInsert hq with h | h
        · exact hout q h
        · rw [h]; exact hacc a k v heq

/-- C3 (amended): every characters-table record has exactly the keys
`name, rarity, element, weapon_type, icon_name` in that order, and every
weapons-table record has exactly the keys `name, rarity, type, icon_name`
(no `element`, and the weapon-type key is `"type"`). -/
theorem table_record_keys :
    (∀ (N : Nat) (avatars : List Avatar) (tm : TextMap) t,
        build_characters N avatars tm = some t → ∀ p ∈ t,
          p.2.map Prod.fst = ["name", "rarity", "element", "weapon_type", "icon_name"]) ∧
    (∀ (N : Nat) (weapons : List Weapon) (tm : TextMap) t,
        build_weapons N weapons tm = some t → ∀ p ∈ t,
          p.2.map Prod.fst = ["name", "rarity", "type", "icon_name"]) := by
  constructor
  · intro N avatars tm t ht p hp
    obtain ⟨keyed, -, hscan⟩ := Option.map_eq_some'.mp ht
    refine scanTable_mem N (acceptChar tm)
      (fun q => q.2.map Prod.fst = ["name", "rarity", "element", "weapon_type", "icon_name"])
      _ [] (by simp) ?_ p (hscan ▸ hp)
    intro a k v h
    obtain ⟨r, -, -, hrec⟩ := acceptChar_some h
    rw [hrec]
    rfl
  · intro N weapons tm t ht p hp
    obtain ⟨keyed, -, hscan⟩ := Option.map_eq_some'.mp ht
    refine scanTable_mem N (acceptWeap tm)
      (fun q => q.2.map Prod.fst = ["name", "rarity", "type", "icon_name"])
      _ [] (by simp) ?_ p (hscan ▸ hp)
    intro w k v h
    obtain ⟨r, -, -, hrec⟩ := acceptWeap_some h
    rw [hrec]
    rfl

/-- Witness for C3 at a concrete build. -/
theorem table_record_keys_witness :
    ([("name", OutVal.vstr "#1"), ("rarity", OutVal.vnum 5),
      ("element", OutVal.vnull), ("weapon_type", OutVal.vstr "None"),
      ("icon_name", OutVal.vstr "UI_AvatarIcon_A")] : OutRec).map Prod.fst =
      ["name", "rarity", "element", "weapon_type", "icon_name"] :=
  table_record_keys.1 30 [dupAvatar] []
    [("1", [("name", OutVal.vstr "#1"), ("rarity", OutVal.vnum 5),
            ("element", OutVal.vnull), ("weapon_type", OutVal.vstr "None"),
            ("icon_name", OutVal.vstr "UI_AvatarIcon_A")])]
    (by decide)
    ("1", [("name", OutVal.vstr "#1"), ("rarity", OutVal.vnum 5),
           ("element", OutVal.vnull), ("weapon_type", OutVal.vstr "None"),
           ("icon_name", OutVal.vstr "UI_AvatarIcon_A")])
    (by decide)

/-- C4 (amended): every characters-table record's rarity is an integer in
`{1, 2, 3, 4, 5}`; a weapons-table record's rarity is the integer parsed
from `rankLevel`, with no range restriction. -/
theorem char_rarity_range :
    (∀ (N : Nat) (avatars : List Avatar) (tm : TextMap) t,
        build_characters N avatars tm = some t → ∀ p ∈ t,
          ∃ r : Int, p.2.lookup "rarity" = some (OutVal.vnum r) ∧
            r ∈ ([1, 2, 3, 4, 5] : List Int)) ∧
    (∀ (N : Nat) (weapons : List Weapon) (tm : TextMap) t,
        build_weapons N weapons tm = some t → ∀ p ∈ t,
          ∃ r : Int, p.2.lookup "rarity" = some (OutVal.vnum r)) := by
  constructor
  · intro N avatars tm t ht p hp
    obtain ⟨keyed, -, hscan⟩ := Option.map_eq_some'.mp ht
    refine scanTable_mem N (acceptChar tm)
      (fun q => ∃ r : Int, q.2.lookup "rarity" = some (OutVal.vnum r) ∧
        r ∈ ([1, 2, 3, 4, 5] : List Int))
      _ [] (by simp) ?_ p (hscan ▸ hp)
    intro a k v h
    obtain ⟨r, hr, -, hrec⟩ := acceptChar_some h
    exact ⟨r, by rw [hrec]; rfl, rarity_from_quality_mem hr⟩
  · intro N weapons tm t ht p hp
    obtain ⟨keyed, -, hscan⟩ := Option.map_eq_some'.mp ht
    refine scanTable_mem N (acceptWeap tm)
      (fun q => ∃ r : Int, q.2.lookup "rarity" = some (OutVal.vnum r))
      _ [] (by simp) ?_ p (hscan ▸ hp)
    intro w k v h
    obtain ⟨r, -, -, hrec⟩ := acceptWeap_some h
    exact ⟨r, by rw [hrec]; rfl⟩

/-- Witness for C4 at a concrete build. -/
theorem char_rarity_range_witness :
    ∃ r : Int,
      (([("name", OutVal.vstr "#1"), ("rarity", OutVal.vnum 5),
         ("element", OutVal.vnull), ("weapon_type", OutVal.vstr "None"),
         ("icon_name", OutVal.vstr "UI_AvatarIcon_A")] : OutRec).lookup "rarity" =
          some (OutVal.vnum r)) ∧
      r ∈ ([1, 2, 3, 4, 5] : List Int) :=
  char_rarity_range.1 30 [dupAvatar] []
    [("1", [("name", OutVal.vstr "#1"), ("rarity", OutVal.vnum 5),
            ("element", OutVal.vnull), ("weapon_type", OutVal.vstr "None"),
            ("icon_name", OutVal.vstr "UI_AvatarIcon_A")])]
    (by decide)
    ("1", [("name", OutVal.vstr "#1"), ("rarity", OutVal.vnum 5),
           ("element", OutVal.vnull), ("weapon_type", OutVal.vstr "None"),
           ("icon_name", OutVal.vstr "UI_AvatarIcon_A")])
    (by decide)

/-- C10: for any candidate accepted by either loop body whose weapon-type
field is missing or null, the emitted weapon-type label is the literal
string `"None"`: `str(None)` is `"None"`, which is not in the lookup map
and is truthy, so it passes through verbatim instead of becoming
`"Unknown"`. -/
theorem missing_weapon_type_none :
    (∀ (tm : TextMap) (a : Avatar) (k : String) (rec : OutRec),
        acceptChar tm a = some (k, rec) →
        a.weaponType = none ∨ a.weaponType = some JVal.null →
        rec.lookup "weapon_type" = some (OutVal.vstr "None")) ∧
    (∀ (tm : TextMap) (w : Weapon) (k : String) (rec : OutRec),
        acceptWeap tm w = some (k, rec) →
        w.weaponType = none ∨ w.weaponType = some JVal.null →
        rec.lookup "type" = some (OutVal.vstr "None")) := by
  constructor
  · intro tm a k rec h hwt
    have hv : a.weaponType.getD JVal.null = JVal.null := by
      rcases hwt with h' | h' <;> simp [h']
    obtain ⟨r, -, -, hrec⟩ := acceptChar_some h
    rw [hrec, hv]
    rfl
  · intro tm w k rec h hwt
    have hv : w.weaponType.getD JVal.null = JVal.null := by
      rcases hwt with h' | h' <;> simp [h']
    obtain ⟨r, -, -, hrec⟩ := acceptWeap_some h
    rw [hrec, hv]
    rfl

/-- Witness for C10: the accepted candidate `dupAvatar` has no
`weaponType`, and its record's weapon-type label is `"None"`. -/
theorem missing_weapon_type_none_witness :
    ([("name", OutVal.vstr "#1"), ("rarity", OutVal.vnum 5),
      ("element", OutVal.vnull), ("weapon_type", OutVal.vstr "None"),
      ("icon_name", OutVal.vstr "UI_AvatarIcon_A")] : OutRec).lookup "weapon_type" =
      some (OutVal.vstr "None") :=
  missing_weapon_type_none.1 [] dupAvatar "1"
    [("name", OutVal.vstr "#1"), ("rarity", OutVal.vnum 5),
     ("element", OutVal.vnull), ("weapon_type", OutVal.vstr "None"),
     ("icon_name", OutVal.vstr "UI_AvatarIcon_A")]
    (by decide) (Or.inl rfl)

/-! ### C9: totality of the sort key -/

/-- If every element's key computes, the whole key pass succeeds. -/
theorem computeKeys_isSome {α : Type} (key : α → Option Int) :
    ∀ l : List α, (∀ a ∈ l, (key a).isSome) → (computeKeys key l).isSome := by
  intro l
  induction l with
  | nil => intro _; simp [computeKeys]
  | cons a rest ih =>
    intro h
    have ha := h a (List.mem_cons_self _ _)
    have hrest := ih (fun b hb => h b (List.mem_cons_of_mem _ hb))
    simp only [computeKeys]
    obtain ⟨k, hk⟩ := Option.isSome_iff_exists.mp ha
    rw [hk]
    simpa using hrest

/-- C9 (amended): a missing id is given sort key 0 without error, and the
builds succeed whenever every *present* id is integer-convertible; a
present id on which `int` raises aborts the build instead (see the
counterexample). -/
theorem sort_key_totality :
    (∀ (N : Nat) (avatars : List Avatar) (tm : TextMap),
        (∀ a ∈ avatars, ∀ v, a.id = some v → (pyIntV v).isSome) →
        (build_characters N avatars tm).isSome) ∧
    (∀ (N : Nat) (weapons : List Weapon) (tm : TextMap),
        (∀ w ∈ weapons, ∀ v, w.id = some v → (pyIntV v).isSome) →
        (build_weapons N weapons tm).isSome) ∧
    idSortKey none = some 0 := by
  refine ⟨?_, ?_, rfl⟩
  · intro N avatars tm h
    have hsome : (computeKeys (fun a => idSortKey a.id) avatars).isSome := by
      refine computeKeys_isSome _ avatars (fun a ha => ?_)
      match hid : a.id with
      | none => simp [idSortKey, pyIntV]
      | some v => simpa [idSortKey, hid] using h a ha v hid
    obtain ⟨keyed, hk⟩ := Option.isSome_iff_exists.mp hsome
    rw [build_characters, hk]
    rfl
  · intro N weapons tm h
    have hsome : (computeKeys (fun w => idSortKey w.id) weapons).isSome := by
      refine computeKeys_isSome _ weapons (fun w hw => ?_)
      match hid : w.id with
      | none => simp [idSortKey, pyIntV]
      | some v => simpa [idSortKey, hid] using h w hw v hid
    obtain ⟨keyed, hk⟩ := Option.isSome_iff_exists.mp hsome
    rw [build_weapons, hk]
    rfl

/-- Witness for C9 at concrete inputs with numeric and absent ids. -/
theorem sort_key_totality_witness :
    (build_characters 30 [dupAvatar, missingIdAvatar] []).isSome ∧
    (build_weapons 30 [rank9Weapon] []).isSome ∧
    idSortKey none = some 0 :=
  ⟨sort_key_totality.1 30 [dupAvatar, missingIdAvatar] [] (by decide),
   sort_key_totality.2.1 30 [rank9Weapon] [] (by decide),
   sort_key_totality.2.2⟩

/-! ### C5: cardinality of the selector's table -/

theorem scanTable_stop {α β : Type} (N : Nat) (accept : α → Option (String × β))
    (l : List α) (out : List (String × β)) (h : N ≤ out.length) :
    scanTable N accept l out = out := by
  cases l with
  | nil => rfl
  | cons a rest => simp [scanTable, h]

theorem scanTable_append {α β : Type} (N : Nat) (accept : α → Option (String × β)) :
    ∀ (l₁ l₂ : List α) (out : List (String × β)),
      scanTable N accept (l₁ ++ l₂) out =
        scanTable N accept l₂ (scanTable N accept l₁ out) := by
  intro l₁
  induction l₁ with
  | nil => intro l₂ out; rfl
  | cons a rest ih =>
    intro l₂ out
    by_cases h : N ≤ out.length
    · rw [scanTable_stop N accept ((a :: rest) ++ l₂) out h,
        scanTable_stop N accept (a :: rest) out h,
        scanTable_stop N accept l₂ out h]
    · simp only [List.cons_append, scanTable, if_neg h]
      cases haccept : accept a with
      | none => exact ih l₂ out
      | some kv => exact ih l₂ (dictInsert out kv.1 kv.2)

theorem dictInsert_keys_nodup {α : Type} {d : List (String × α)} (k : String)
    (v : α) (h : (d.map Prod.fst).Nodup) :
    ((dictInsert d k v).map Prod.fst).Nodup := by
  rw [dictInsert_keys]
  split
  · exact h
  · rename_i hmem
    simp [List.nodup_append, h, hmem]

theorem acceptedKeys_cons {α β : Type} (accept : α → Option (String × β))
    (a : α) (l : List α) :
    acceptedKeys accept (a :: l) =
      (match accept a with
        | none => acceptedKeys accept l
        | some kv => kv.1 :: acceptedKeys accept l) := by
  cases haccept : accept a <;> simp [acceptedKeys, List.filterMap_cons, haccept]

/-- The number of entries the scan produces: the configured bound `N`, or
the number of distinct keys among the starting table and the accepted
candidates, whichever is smaller. -/
theorem scanTable_length_eq {α β : Type} (N : Nat) (accept : α → Option (String × β)) :
    ∀ (l : List α) (out : List (String × β)),
      (out.map Prod.fst).Nodup → out.length ≤ N →
      (scanTable N accept l out).length =
        min N ((out.map Prod.fst ++ acceptedKeys accept l).toFinset.card) := by
  intro l
  induction l with
  | nil =>
    intro out hnd hle
    rw [show scanTable N accept [] out = out from rfl]
    simp only [acceptedKeys, List.filterMap_nil, List.append_nil]
    rw [List.toFinset_card_of_nodup hnd, List.length_map]
    exact (Nat.min_eq_right hle).symm
  | cons a rest ih =>
    intro out hnd hle
    simp only [scanTable]
    by_cases h : N ≤ out.length
    · rw [if_pos h]
      have hlen : out.length = N := Nat.le_antisymm hle h
      have hcard : N ≤ ((out.map Prod.fst ++ acceptedKeys accept (a :: rest)).toFinset.card) := by
        calc N = (out.map Prod.fst).length := by rw [List.length_map, hlen]
        _ = (out.map Prod.fst).toFinset.card := (List.toFinset_card_of_nodup hnd).symm
        _ ≤ _ := by
            rw [List.toFinset_append]
            exact Finset.card_le_card Finset.subset_union_left
      rw [Nat.min_eq_left hcard]
      exact hlen
    · rw [if_neg h]
      rw [acceptedKeys_cons]
      cases haccept : accept a with
      | none =>
        exact ih out hnd hle
      | some kv =>
        obtain ⟨k, v⟩ := kv
        have hout' : ((dictInsert out k v).map Prod.fst).Nodup :=
          dictInsert_keys_nodup k v hnd
        have hle' : (dictInsert out k v).length ≤ N := by
          rw [length_dictInsert]
          split <;> omega
        have hfin : ((dictInsert out k v).map Prod.fst ++ acceptedKeys accept rest).toFinset =
            (out.map Prod.fst ++ (k :: acceptedKeys accept rest)).toFinset := by
          rw [dictInsert_keys]
          split
          · rename_i hmem
            ext x
            simp only [List.mem_toFinset, List.mem_append, List.mem_cons]
            constructor
            · intro hx
              rcases hx with hx | hx
              · exact Or.inl hx
              · exact Or.inr (Or.inr hx)
            · intro hx
              rcases hx with hx | hx | hx
              · exact Or.inl hx
              · exact Or.inl (hx ▸ hmem)
              · exact Or.inr hx
          · ext x
            simp only [List.mem_toFinset, List.mem_append, List.mem_cons,
              List.mem_singleton, List.not_mem_nil, or_false]
            constructor
            · intro hx
              rcases hx with (hx | hx) | hx
              · exact Or.inl hx
              · exact Or.inr (Or.inl hx)
              · exact Or.inr (Or.inr hx)
            · intro hx
              rcases hx with hx | hx | hx
              · exact Or.inl (Or.inl hx)
              · exact Or.inl (Or.inr hx)
              · exact Or.inr hx
        show (scanTable N accept rest (dictInsert out k v)).length =
          min N ((out.map Prod.fst ++ (k :: acceptedKeys accept rest)).toFinset.card)
        rw [ih (dictInsert out k v) hout' hle', hfin]

/-- C5 (amended): the selector scan used by both builders produces at most
`N` entries; it produces exactly `N` entries whenever the accepted
candidates carry at least `N` distinct keys; and once the table reaches
size `N`, appending further candidates changes nothing (they are never
evaluated); consequently any successfully built table is bounded by the
configured maximum. -/
theorem selector_cardinality :
    (∀ (α β : Type) (N : Nat) (accept : α → Option (String × β)) (l : List α),
        (scanTable N accept l []).length =
          min N (acceptedKeys accept l).toFinset.card) ∧
    (∀ (α β : Type) (N : Nat) (accept : α → Option (String × β)) (l : List α),
        (scanTable N accept l []).length ≤ N) ∧
    (∀ (α β : Type) (N : Nat) (accept : α → Option (String × β)) (l : List α),
        N ≤ (acceptedKeys accept l).toFinset.card →
        (scanTable N accept l []).length = N) ∧
    (∀ (α β : Type) (N : Nat) (accept : α → Option (String × β)) (l l₂ : List α),
        N ≤ (scanTable N accept l []).length →
        scanTable N accept (l ++ l₂) [] = scanTable N accept l []) ∧
    (∀ (N : Nat) (avatars : List Avatar) (tm : TextMap) t,
        build_characters N avatars tm = some t → t.length ≤ N) ∧
    (∀ (N : Nat) (weapons : List Weapon) (tm : TextMap) t,
        build_weapons N weapons tm = some t → t.length ≤ N) := by
  have hmaster : ∀ (α β : Type) (N : Nat) (accept : α → Option (String × β))
      (l : List α), (scanTable N accept l []).length =
        min N (acceptedKeys accept l).toFinset.card := by
    intro α β N accept l
    simpa using scanTable_length_eq N accept l [] (by simp) (by simp)
  have hbound : ∀ (α β : Type) (N : Nat) (accept : α → Option (String × β))
      (l : List α), (scanTable N accept l []).length ≤ N := by
    intro α β N accept l
    rw [hmaster]
    exact Nat.min_le_left _ _
  refine ⟨hmaster, hbound, ?_, ?_, ?_, ?_⟩
  · intro α β N accept l hcard
    rw [hmaster]
    exact Nat.min_eq_left hcard
  · intro α β N accept l l₂ hfull
    rw [scanTable_append]
    exact scanTable_stop N accept l₂ _ hfull
  · intro N avatars tm t ht
    obtain ⟨keyed, -, hscan⟩ := Option.map_eq_some'.mp ht
    rw [← hscan]
    exact hbound Avatar OutRec N (acceptChar tm) _
  · intro N weapons tm t ht
    obtain ⟨keyed, -, hscan⟩ := Option.map_eq_some'.mp ht
    rw [← hscan]
    exact hbound Weapon OutRec N (acceptWeap tm) _

/-- Witness for C5 at a concrete instantiation: with `N = 1` and two
passing candidates the scan stops at exactly one entry. -/
theorem selector_cardinality_witness :
    (scanTable 1 (acceptChar []) [dupAvatar, dupAvatar] []).length = 1 :=
  selector_cardinality.2.2.1 Avatar OutRec 1 (acceptChar []) [dupAvatar, dupAvatar]
    (by decide)

/-! ### C1: layout of the packed difference-hash bits -/

theorem packBits_foldl_shift :
    ∀ (bs : List Bool) (v : Nat),
      bs.foldl (fun x b => 2 * x + (if b then 1 else 0)) v =
        v * 2 ^ bs.length + packBits bs := by
  intro bs
  induction bs with
  | nil => intro v; simp [packBits]
  | cons b t ih =>
    intro v
    rw [List.foldl_cons, ih,
      show packBits (b :: t) = t.foldl (fun x b => 2 * x + (if b then 1 else 0))
        (2 * 0 + (if b then 1 else 0)) from rfl, ih]
    simp only [Nat.mul_zero, Nat.zero_add, List.length_cons]
    ring

theorem packBits_append (xs ys : List Bool) :
    packBits (xs ++ ys) = packBits xs * 2 ^ ys.length + packBits ys := by
  show (xs ++ ys).foldl (fun x b => 2 * x + (if b then 1 else 0)) 0 = _
  rw [List.foldl_append]
  exact packBits_foldl_shift ys _

/-- `packBits` packs most-significant-first: bit `k` of the input list
carries weight `2 ^ (length - 1 - k)`. -/
theorem packBits_sum :
    ∀ bs : List Bool,
      packBits bs = ∑ k in Finset.range bs.length,
        (if bs.getD k false then 2 ^ (bs.length - 1 - k) else 0) := by
  intro bs
  induction bs with
  | nil => simp [packBits]
  | cons b t ih =>
    have hstep : packBits (b :: t) =
        (if b then 1 else 0) * 2 ^ t.length + packBits t := by
      rw [show packBits (b :: t) = t.foldl (fun x b => 2 * x + (if b then 1 else 0))
          (2 * 0 + (if b then 1 else 0)) from rfl, packBits_foldl_shift]
      simp
    rw [hstep, ih, List.length_cons, Finset.sum_range_succ',
      Nat.add_comm ((if b then 1 else 0) * 2 ^ t.length)]
    congr 1
    · refine Finset.sum_congr rfl (fun k hk => ?_)
      rw [List.getD_cons_succ]
      refine if_congr Iff.rfl ?_ rfl
      congr 1
      omega
    · simp only [List.getD_cons_zero]
      by_cases hb : b <;> simp [hb]

theorem rowBits_length (r : List Nat) : (rowBits r).length = r.length - 1 := by
  cases r with
  | nil => rfl
  | cons a t =>
    simp only [rowBits, List.length_zipWith, List.tail_cons, List.length_cons]
    omega

theorem rowBits_getD :
    ∀ (r : List Nat) (k : Nat), k + 1 < r.length →
      (rowBits r).getD k false = decide (r.getD k 0 < r.getD (k + 1) 0)
  | [], k, h => absurd h (by simp)
  | [a], k, h => absurd h (by simp)
  | a :: b :: t, 0, _ => rfl
  | a :: b :: t, k + 1, h =>
    rowBits_getD (b :: t) k (by simpa using h)

theorem dhashBits_cons (r : List Nat) (R : List (List Nat)) :
    dhashBits (r :: R) = rowBits r ++ dhashBits R := rfl

theorem dhashBits_length (n : Nat) :
    ∀ R : List (List Nat), (∀ r ∈ R, r.length = n + 1) →
      (dhashBits R).length = n * R.length := by
  intro R
  induction R with
  | nil => intro _; simp [dhashBits]
  | cons r R' ih =>
    intro h
    have h1 : (rowBits r).length = n := by
      rw [rowBits_length, h r (List.mem_cons_self _ _)]
      omega
    rw [dhashBits_cons, List.length_append, h1,
      ih (fun s hs => h s (List.mem_cons_of_mem _ hs)), List.length_cons]
    ring

/-- Row-by-row form of the packed hash value: the bit for row `i`,
column pair `(j, j+1)` (set exactly when the right neighbour is strictly
greater) carries weight `2 ^ (n * rows - 1 - (n * i + j))`. -/
theorem dhash_rows_formula (n : Nat) :
    ∀ R : List (List Nat), (∀ r ∈ R, r.length = n + 1) →
      packBits (dhashBits R) =
        ∑ i in Finset.range R.length, ∑ j in Finset.range n,
          (if (R.getD i []).getD j 0 < (R.getD i []).getD (j + 1) 0 then
            2 ^ (n * R.length - 1 - (n * i + j)) else 0) := by
  intro R
  induction R with
  | nil => intro _; simp [dhashBits, packBits]
  | cons r R' ih =>
    intro hr
    have hrlen : r.length = n + 1 := hr r (List.mem_cons_self _ _)
    have hR' : ∀ s ∈ R', s.length = n + 1 :=
      fun s hs => hr s (List.mem_cons_of_mem _ hs)
    have hrowlen : (rowBits r).length = n := by
      rw [rowBits_length, hrlen]
      omega
    have hrow : packBits (rowBits r) = ∑ j in Finset.range n,
        (if r.getD j 0 < r.getD (j + 1) 0 then 2 ^ (n - 1 - j) else 0) := by
      rw [packBits_sum, hrowlen]
      refine Finset.sum_congr rfl (fun k hk => ?_)
      rw [rowBits_getD r k
        (by rw [hrlen]; exact Nat.succ_lt_succ (Finset.mem_range.mp hk))]
      by_cases hlt : r.getD k 0 < r.getD (k + 1) 0 <;> simp [hlt]
    rw [dhashBits_cons, packBits_append, dhashBits_length n R' hR', ih hR',
      hrow, List.length_cons, Finset.sum_range_succ']
    refine Eq.trans ?_ (Nat.add_comm _ _)
    congr 1
    · -- the first row contributes the most significant block of bits
      simp only [List.getD_cons_zero, Nat.mul_zero, Nat.zero_add]
      rw [Finset.sum_mul]
      refine Finset.sum_congr rfl (fun j hj => ?_)
      have hj' : j < n := Finset.mem_range.mp hj
      have hnL : n * (R'.length + 1) = n * R'.length + n := by ring
      rw [ite_mul, Nat.zero_mul]
      refine if_congr Iff.rfl ?_ rfl
      rw [← pow_add]
      congr 1
      omega
    · -- the remaining rows keep their weights, shifted by one row index
      refine Finset.sum_congr rfl (fun i hi => ?_)
      refine Finset.sum_congr rfl (fun j hj => ?_)
      have hi' : i < R'.length := Finset.mem_range.mp hi
      have hj' : j < n := Finset.mem_range.mp hj
      have hnL : n * (R'.length + 1) = n * R'.length + n := by ring
      have hni : n * (i + 1) = n * i + n := by ring
      simp only [List.getD_cons_succ]
      refine if_congr Iff.rfl ?_ rfl
      congr 1
      omega

/-- C1 (amended): for an `n`-row matrix of `(n+1)`-pixel rows (the shape
`dhash` produces by resizing), each pixel is compared with its immediate
right neighbour, the bit is 1 exactly when the *right* neighbour's
intensity is strictly greater than the left pixel's (else 0), and the
`n*n` bits are packed most-significant-first in row-major encounter order:
bit `(i, j)` carries weight `2 ^ (n*n - 1 - (n*i + j))`; `dhash_hex`
renders exactly this packed value in zero-padded hex. -/
theorem dhash_bit_layout :
    (∀ (n : Nat) (R : List (List Nat)), R.length = n →
      (∀ r ∈ R, r.length = n + 1) →
      packBits (dhashBits R) =
        ∑ i in Finset.range n, ∑ j in Finset.range n,
          (if (R.getD i []).getD j 0 < (R.getD i []).getD (j + 1) 0 then
            2 ^ (n * n - 1 - (n * i + j)) else 0)) ∧
    (∀ (img : List (List (Nat × Nat × Nat))) (hs : Nat),
      dhash_hex img hs =
        toHexPad (packBits (dhashBits (cvResizeAreaSq hs (cvtColorBGR2GRAY img))))
          (hexWidth hs)) := by
  constructor
  · intro n R hlen hrow
    subst hlen
    exact dhash_rows_formula R.length R hrow
  · intro img hs
    rfl

/-- Witness for C1 at a concrete resized matrix. -/
theorem dhash_bit_layout_witness :
    packBits (dhashBits [[0, 1]]) =
      ∑ i in Finset.range 1, ∑ j in Finset.range 1,
        (if (([[0, 1]] : List (List Nat)).getD i []).getD j 0 <
            (([[0, 1]] : List (List Nat)).getD i []).getD (j + 1) 0 then
          2 ^ (1 * 1 - 1 - (1 * i + j)) else 0) :=
  dhash_bit_layout.1 1 [[0, 1]] rfl (by decide)

end BuildPack
